import Mathlib

/-!
Verification of the spatial layer navigator with background particle-field
simulation (component Library3DView in src/components/BookForm.tsx).

The TypeScript source is embedded shallowly:
* JavaScript numbers are modelled as rationals (the arithmetic used here is
  exact on the values involved);
* the plain object used as a category map is modelled as an association list
  of own properties, together with the two pieces of JavaScript object
  semantics that are observable through it: property lookup consults the
  prototype chain (so a category naming an `Object.prototype` member makes
  `groups[cat].push` throw a TypeError), and enumeration with
  `Object.entries` lists canonical array-index keys first in ascending
  numeric order, then the remaining string keys in insertion order
  (ECMA-262, OrdinaryOwnPropertyKeys);
* `Array.prototype.sort` is stable (ES2019), modelled by a stable insertion
  sort;
* React state updates are modelled by explicit state-passing, and the two
  asynchronous resources (the warp-reset timeout and the animation-frame
  scheduler) by explicit resource flags.
-/

namespace ReadingLog

/-- The fields of a `Book` record that the layer navigator reads
(src/types.ts; `category` is optional). -/
structure Book where
  id : String
  title : String
  category : Option String
deriving DecidableEq

/-- The category key used for a book: `book.category || '未分類'`.  The
JavaScript `||` takes the fallback when `category` is `undefined` or the
empty string (both falsy). -/
def catOf (b : Book) : String :=
  match b.category with
  | none => "未分類"
  | some c => if c = "" then "未分類" else c

/-- The seed list `defaultCats` from `booksByCategory`. -/
def defaultCats : List String :=
  ["商業理財", "心理勵志", "文學小說", "人文社科", "科幻小說", "自我成長"]

/-- Own properties of `Object.prototype`.  For a category equal to one of
these names, `!groups[cat]` sees the truthy inherited value, no own bucket
is created, and `groups[cat].push(book)` throws a TypeError (the inherited
values are functions or objects without a `push` method). -/
def protoProps : List String :=
  ["constructor", "hasOwnProperty", "isPrototypeOf", "propertyIsEnumerable",
   "toLocaleString", "toString", "valueOf", "__proto__",
   "__defineGetter__", "__defineSetter__", "__lookupGetter__", "__lookupSetter__"]

/-- One step of the grouping loop body on the own-property map:
`if (!groups[cat]) groups[cat] = []; groups[cat].push(book)`.  A missing key
is appended at the end (insertion order); an existing key keeps its position
and its array grows at the end. -/
def pushBook (gs : List (String × List Book)) (cat : String) (b : Book) :
    List (String × List Book) :=
  match gs with
  | [] => [(cat, [b])]
  | (k, v) :: rest =>
      if k = cat then (k, v ++ [b]) :: rest else (k, v) :: pushBook rest cat b

/-- The own-property map after seeding the default categories and folding the
grouping loop over the book list. -/
def buildGroups (books : List Book) : List (String × List Book) :=
  books.foldl (fun gs b => pushBook gs (catOf b) b)
    (defaultCats.map (fun c => (c, [])))

/-- Decimal value of a digit string. -/
def natOfDigits (cs : List Char) : Nat :=
  cs.foldl (fun a c => a * 10 + (c.toNat - 48)) 0

/-- Whether a string is a canonical array-index property key in the sense of
ECMA-262: the decimal form of some `n < 2^32 - 1`, so all digits, no leading
zero except for the string made of the single digit zero. -/
def isArrayIndex (s : String) : Bool :=
  !s.data.isEmpty && s.data.all (fun c => c.isDigit)
    && (s.data = [Char.ofNat 48] || s.data.headD (Char.ofNat 48) ≠ Char.ofNat 48)
    && natOfDigits s.data < 4294967295

/-- Numeric value of an array-index key (0 on non-numeric keys, unused). -/
def keyVal (g : String × List Book) : Nat :=
  natOfDigits g.1.data

/-- Insert into a list of array-index-keyed buckets, ascending by numeric
key value. -/
def insertAscIdx (g : String × List Book) :
    List (String × List Book) → List (String × List Book)
  | [] => [g]
  | h :: t => if keyVal g ≤ keyVal h then g :: h :: t else h :: insertAscIdx g t

/-- Sort array-index-keyed buckets ascending by numeric key value. -/
def sortIndexKeys : List (String × List Book) → List (String × List Book)
  | [] => []
  | h :: t => insertAscIdx h (sortIndexKeys t)

/-- `Object.entries(groups)`: canonical array-index keys first, in ascending
numeric order, then the remaining keys in insertion order. -/
def objectEntries (gs : List (String × List Book)) : List (String × List Book) :=
  sortIndexKeys (gs.filter (fun g => isArrayIndex g.1))
    ++ gs.filter (fun g => !isArrayIndex g.1)

/-- Stable insertion (descending by bucket size) for the model of the stable
`Array.prototype.sort` with comparator `(a, b) => b[1].length - a[1].length`:
the inserted bucket goes in front of the first bucket whose size is not
larger, so earlier buckets of equal size stay in front. -/
def insertDescCount (g : String × List Book) :
    List (String × List Book) → List (String × List Book)
  | [] => [g]
  | h :: t =>
      if h.2.length ≤ g.2.length then g :: h :: t else h :: insertDescCount g t

/-- Stable sort, descending by bucket size. -/
def sortByCountDesc : List (String × List Book) → List (String × List Book)
  | [] => []
  | h :: t => insertDescCount h (sortByCountDesc t)

/-- The `booksByCategory` memo: `none` models the TypeError thrown when some
book's category names an `Object.prototype` member; otherwise the seeded and
filled map is enumerated and stably sorted by descending bucket size. -/
def booksByCategory (books : List Book) : Option (List (String × List Book)) :=
  if books.all (fun b => !protoProps.contains (catOf b)) then
    some (sortByCountDesc (objectEntries (buildGroups books)))
  else
    none

/-- The categories of the books, in first-seen order, skipping the seeded
defaults; used to describe the key order of `buildGroups`. -/
def newCats (books : List Book) : List String :=
  books.foldl
    (fun acc b =>
      if catOf b ∈ defaultCats ∨ catOf b ∈ acc then acc else acc ++ [catOf b])
    []

/-- One step of the key-order evolution of the grouping map: a key already
present keeps the list unchanged, a fresh key is appended. -/
def keyStep (acc : List String) (c : String) : List String :=
  if c ∈ acc then acc else acc ++ [c]

/-- A book in a seeded default category (for concrete scenarios). -/
def c6bookA : Book :=
  { id := "1", title := "甲", category := some "商業理財" }

/-- A book whose category is the canonical array-index string five. -/
def c6book5 : Book :=
  { id := "2", title := "乙", category := some "5" }

/-! ### Navigation state machine

`activeLayer` and `isWarping` are the two `useState` cells of
`Library3DView` that the navigation operations touch.  `goToLayer` is the
source function of the same name; `handleNext` and `handlePrev` guard it
with the bound checks from the source; the warp timeout callback
(`setIsWarping(false)`) is the `warpEnd` event. -/

structure NavState where
  activeLayer : ℤ
  isWarping : Bool
deriving DecidableEq

/-- Initial state: `useState(0)` and `useState(false)`. -/
def initNav : NavState := ⟨0, false⟩

/-- `goToLayer`: return unchanged if the index is current or a warp is in
progress; otherwise `triggerWarp()` (sets `isWarping`) and set the layer.
There is no range check on `index` in the source. -/
def goToLayer (s : NavState) (index : ℤ) : NavState :=
  if index = s.activeLayer ∨ s.isWarping then s
  else { activeLayer := index, isWarping := true }

/-- `handleNext`: step forward only below the last bucket index. -/
def handleNext (count : ℤ) (s : NavState) : NavState :=
  if s.activeLayer < count - 1 then goToLayer s (s.activeLayer + 1) else s

/-- `handlePrev`: step back only above index zero. -/
def handlePrev (s : NavState) : NavState :=
  if 0 < s.activeLayer then goToLayer s (s.activeLayer - 1) else s

/-- Expiry of the 900ms warp timeout: `setIsWarping(false)`. -/
def warpEnd (s : NavState) : NavState :=
  { s with isWarping := false }

/-- The navigation commands observable on the machine. -/
inductive NavOp where
  | goTo (index : ℤ)
  | next
  | prev
  | warpEnd
deriving DecidableEq

def navStep (count : ℤ) (s : NavState) : NavOp → NavState
  | .goTo i => goToLayer s i
  | .next => handleNext count s
  | .prev => handlePrev s
  | .warpEnd => warpEnd s

def runNav (count : ℤ) (s : NavState) (ops : List NavOp) : NavState :=
  ops.foldl (navStep count) s

/-! ### Particle field

`Math.random()` draws are modelled by an oracle `rand : Nat → ℚ` consumed
in call order (five draws per particle), with the hypothesis that every
draw lies in `[0, 1)`. -/

structure Particle where
  x : ℚ
  y : ℚ
  z : ℚ
  size : ℚ
  speed : ℚ
deriving DecidableEq

/-- `particleCount` from the source. -/
def particleCount : Nat := 150

/-- The focal length `1000` used in `k = 1000 / p.z`. -/
def FOCAL : ℚ := 1000

/-- The recycling depth `2000`. -/
def MAX_DEPTH : ℚ := 2000

/-- `createParticles` for a canvas of width `w` and height `h`: the five
`Math.random()` calls of particle `i` are draws `5*i` to `5*i+4` of the
oracle. -/
def createParticles (w h : ℚ) (rand : Nat → ℚ) : List Particle :=
  (List.range particleCount).map (fun i =>
    { x := (rand (5 * i) - 1 / 2) * w * 2
      y := (rand (5 * i + 1) - 1 / 2) * h * 2
      z := rand (5 * i + 2) * 2000
      size := rand (5 * i + 3) * 2 + 1
      speed := rand (5 * i + 4) * 2 + 1 })

/-- The per-particle part of `draw` that mutates state:
`p.z -= p.speed * (isWarping ? 12 : 1); if (p.z <= 0) p.z = 2000`. -/
def tickParticle (warping : Bool) (p : Particle) : Particle :=
  let z1 := p.z - p.speed * (if warping then 12 else 1)
  if z1 ≤ 0 then { p with z := 2000 } else { p with z := z1 }

/-- One frame over the whole field (`particles.forEach`). -/
def tickField (warping : Bool) (ps : List Particle) : List Particle :=
  ps.map (tickParticle warping)

/-- Run the frames of a whole session; `ws` gives for each frame the value
of `isWarping` seen by `draw`. -/
def runTicks (ps : List Particle) (ws : List Bool) : List Particle :=
  ws.foldl (fun a w => tickField w a) ps

/-- The projection data computed by `draw` after the depth update:
`k = 1000 / p.z`, screen position, apparent size, and the `alpha` factor
of the fill style. -/
structure Projected where
  px : ℚ
  py : ℚ
  psize : ℚ
  alpha : ℚ
deriving DecidableEq

def project (cw ch : ℚ) (p : Particle) : Projected :=
  let k := FOCAL / p.z
  { px := p.x * k + cw / 2
    py := p.y * k + ch / 2
    psize := p.size * k
    alpha := (MAX_DEPTH - p.z) / MAX_DEPTH }

/-- The order of operations of `draw` on one particle: the depth decrement
and the recycle test happen first, and the perspective divide is applied to
the updated particle. -/
def drawStep (warping : Bool) (cw ch : ℚ) (p : Particle) :
    Particle × Projected :=
  let p1 := tickParticle warping p
  (p1, project cw ch p1)

/-! ### Proximity trigger (edge-hover hysteresis) -/

/-- The near threshold (40px) of `handleMouseMove`. -/
def NEAR : ℚ := 40

/-- The far threshold (120px) of `handleMouseMove`. -/
def FAR : ℚ := 120

/-- `handleMouseMove`: with the nav panel open the handler returns at once;
otherwise `clientX < 40` shows the handle, `clientX > 120` hides it, and
the band in between keeps the previous value. -/
def handleMouseMove (navOpen : Bool) (x : ℚ) (visible : Bool) : Bool :=
  if navOpen then visible
  else if x < NEAR then true
  else if FAR < x then false
  else visible

/-- The visibility value after each pointer event of a session with the nav
panel closed, starting from visibility `v`. -/
def mouseTrace (v : Bool) : List ℚ → List Bool
  | [] => []
  | x :: xs =>
      let v1 := handleMouseMove false x v
      v1 :: mouseTrace v1 xs

/-! ### Asynchronous resources of the view

`triggerWarp` starts a `setTimeout` whose id is never stored; the particle
effect owns an animation-frame id; the effect cleanup removes the resize
listener and cancels the animation frame, and the mouse effect cleanup
removes the pointer listener — no `clearTimeout` occurs anywhere in
`Library3DView`. -/

structure ViewResources where
  mounted : Bool
  isWarping : Bool
  warpTimerPending : Bool
  rafPending : Bool
  tickCount : Nat
deriving DecidableEq

/-- State of a freshly mounted view inside the particle effect: the effect
called `draw()` once, so an animation frame is scheduled. -/
def mountedView : ViewResources :=
  { mounted := true, isWarping := false, warpTimerPending := false,
    rafPending := true, tickCount := 0 }

/-- `triggerWarp()`: `setIsWarping(true)` and `setTimeout(..., 900)`; the
timeout id is discarded. -/
def triggerWarp (v : ViewResources) : ViewResources :=
  { v with isWarping := true, warpTimerPending := true }

/-- Expiry of the warp timeout: the callback `() => setIsWarping(false)`
runs whenever the timeout is still pending — nothing guards it on the view
being mounted. -/
def warpTimerFire (v : ViewResources) : ViewResources :=
  if v.warpTimerPending then
    { v with warpTimerPending := false, isWarping := false }
  else v

/-- An animation frame fires: `draw` ticks the field and reschedules
itself. -/
def rafFire (v : ViewResources) : ViewResources :=
  if v.rafPending then { v with tickCount := v.tickCount + 1 } else v

/-- Teardown: the particle effect cleanup runs
`window.removeEventListener('resize', resize)` and
`cancelAnimationFrame(animationFrameId)`, and the mouse effect cleanup
removes its listener.  No `clearTimeout` is called, so a pending warp
timeout stays pending. -/
def cleanupView (v : ViewResources) : ViewResources :=
  { v with mounted := false, rafPending := false }

/-! ## Theorems -/

open List

/-- Claim C7: a frame tick changes only the particle depth, decreasing it by
`speed * 12` while warping and by `speed * 1` otherwise, recycling to
`MAX_DEPTH` when the decremented depth is not positive; `x`, `y`, `size`
and `speed` are unchanged, including on the recycling tick. -/
theorem c7_tick_frame_effect (w : Bool) (p : Particle) :
    (tickParticle w p).x = p.x ∧ (tickParticle w p).y = p.y ∧
    (tickParticle w p).size = p.size ∧ (tickParticle w p).speed = p.speed ∧
    (tickParticle w p).z =
      (if p.z - p.speed * (if w then 12 else 1) ≤ 0 then MAX_DEPTH
       else p.z - p.speed * (if w then 12 else 1)) := by
  unfold tickParticle MAX_DEPTH
  dsimp only
  split <;> split <;> simp_all

/-- Claim C10: inside one frame the depth update and the recycle reset come
before the projection, and the depth fed to the perspective divide
`FOCAL / depth` is strictly positive for every particle and every warp
state, so the divide never sees zero. -/
theorem c10_divide_depth_positive (w : Bool) (cw ch : ℚ) (p : Particle) :
    0 < (drawStep w cw ch p).1.z ∧
    (drawStep w cw ch p).2 = project cw ch (tickParticle w p) := by
  refine ⟨?_, rfl⟩
  unfold drawStep tickParticle
  dsimp only
  split <;> split
  · norm_num
  · rename_i h
    push_neg at h
    show 0 < p.z - p.speed * 12
    linarith
  · norm_num
  · rename_i h
    push_neg at h
    show 0 < p.z - p.speed * 1
    linarith

/-- Claim C8: the projection computes screen position
`position * (FOCAL / depth) + center`, apparent size
`size * (FOCAL / depth)` and the opacity factor
`(MAX_DEPTH - depth) / MAX_DEPTH`, which is `0` at depth `MAX_DEPTH` and
strictly increases as the depth decreases. -/
theorem c8_projection (cw ch : ℚ) (p : Particle)
    (hz : 0 < p.z ∧ p.z ≤ MAX_DEPTH) :
    (project cw ch p).px = p.x * (FOCAL / p.z) + cw / 2 ∧
    (project cw ch p).py = p.y * (FOCAL / p.z) + ch / 2 ∧
    (project cw ch p).psize = p.size * (FOCAL / p.z) ∧
    (project cw ch p).alpha = (MAX_DEPTH - p.z) / MAX_DEPTH ∧
    (p.z = MAX_DEPTH → (project cw ch p).alpha = 0) ∧
    (∀ q : Particle, q.z < p.z →
      (project cw ch p).alpha < (project cw ch q).alpha) := by
  refine ⟨rfl, rfl, rfl, rfl, ?_, ?_⟩
  · intro h
    simp [project, h]
  · intro q hq
    have hM : (0 : ℚ) < MAX_DEPTH := by norm_num [MAX_DEPTH]
    simp only [project]
    exact div_lt_div_of_pos_right (by linarith) hM

/-- Witness for C8 at a particle on the recycling depth. -/
theorem c8_projection_witness :
    (project 800 600 ⟨0, 0, 2000, 1, 1⟩).alpha = 0 ∧
    (project 800 600 ⟨0, 0, 2000, 1, 1⟩).alpha <
      (project 800 600 ⟨0, 0, 1000, 1, 1⟩).alpha := by
  have h := c8_projection 800 600 ⟨0, 0, 2000, 1, 1⟩
    (by constructor <;> norm_num [MAX_DEPTH])
  exact ⟨h.2.2.2.2.1 rfl, h.2.2.2.2.2 ⟨0, 0, 1000, 1, 1⟩ (by norm_num)⟩

/-- Claim C9: with the nav panel closed, a pointer x below 40 forces the
edge handle visible, above 120 forces it hidden, and the band in between
keeps the previous value; the pointer sequence 10, 60, 130, 70 yields the
visibility sequence true, true, false, false. -/
theorem c9_hysteresis :
    (∀ x v, x < NEAR → handleMouseMove false x v = true) ∧
    (∀ x v, FAR < x → handleMouseMove false x v = false) ∧
    (∀ x v, NEAR ≤ x → x ≤ FAR → handleMouseMove false x v = v) ∧
    mouseTrace false [10, 60, 130, 70] = [true, true, false, false] := by
  refine ⟨?_, ?_, ?_, by decide⟩
  · intro x v h
    simp [handleMouseMove, h]
  · intro x v h
    have h2 : ¬x < NEAR := by unfold NEAR FAR at *; linarith
    simp [handleMouseMove, h2, h]
  · intro x v h1 h2
    simp [handleMouseMove, not_lt.mpr h1, not_lt.mpr h2]

/-- Witness for C9 at the three threshold regimes. -/
theorem c9_hysteresis_witness :
    handleMouseMove false 10 false = true ∧
    handleMouseMove false 130 true = false ∧
    handleMouseMove false 60 true = true := by
  refine ⟨c9_hysteresis.1 10 false ?_, c9_hysteresis.2.1 130 true ?_,
    c9_hysteresis.2.2.1 60 true ?_ ?_⟩ <;> norm_num [NEAR, FAR]

/-- Claim C3 (code bug): after the view is torn down the animation-frame
scheduler is cancelled and ticks stop, but the 900ms warp-reset timeout of
`triggerWarp` survives teardown — no `clearTimeout` exists in
`Library3DView`, the timeout id is discarded — and its late expiry still
flips `isWarping` after teardown. -/
theorem c3_warp_timer_survives_teardown :
    ((cleanupView (triggerWarp mountedView)).warpTimerPending = true ∧
     (warpTimerFire (cleanupView (triggerWarp mountedView))).isWarping = false ∧
     (cleanupView (triggerWarp mountedView)).isWarping = true) ∧
    ((cleanupView (triggerWarp mountedView)).rafPending = false ∧
     rafFire (cleanupView (triggerWarp mountedView)) =
       cleanupView (triggerWarp mountedView)) := by
  decide

/-- One navigation step keeps the active index in range when a `goTo`
argument, if any, is in range. -/
theorem navStep_bound (count : ℤ) (s : NavState) (op : NavOp)
    (hs : 0 ≤ s.activeLayer ∧ s.activeLayer < count)
    (hop : ∀ i : ℤ, op = NavOp.goTo i → 0 ≤ i ∧ i < count) :
    0 ≤ (navStep count s op).activeLayer ∧
      (navStep count s op).activeLayer < count := by
  cases op with
  | goTo i =>
      have hi := hop i rfl
      simp only [navStep, goToLayer]
      split
      · exact hs
      · simpa using hi
  | next =>
      simp only [navStep, handleNext, goToLayer]
      split
      · rename_i h
        split
        · exact hs
        · constructor <;> simp <;> omega
      · exact hs
  | prev =>
      simp only [navStep, handlePrev, goToLayer]
      split
      · rename_i h
        split
        · exact hs
        · constructor <;> simp <;> omega
      · exact hs
  | warpEnd =>
      simpa [navStep, warpEnd] using hs

/-- The in-range invariant is preserved by any run whose `goTo` arguments
are all in range. -/
theorem runNav_bound (count : ℤ) (ops : List NavOp) :
    ∀ s : NavState, 0 ≤ s.activeLayer → s.activeLayer < count →
      (∀ i : ℤ, NavOp.goTo i ∈ ops → 0 ≤ i ∧ i < count) →
      0 ≤ (runNav count s ops).activeLayer ∧
        (runNav count s ops).activeLayer < count := by
  induction ops with
  | nil =>
      intro s h1 h2 _
      exact ⟨h1, h2⟩
  | cons op rest ih =>
      intro s h1 h2 hops
      have hstep := navStep_bound count s op
        ⟨h1, h2⟩ (fun i hi => hops i (by simp [hi]))
      simp only [runNav, List.foldl_cons]
      exact ih _ hstep.1 hstep.2 (fun i hi => hops i (List.mem_cons_of_mem _ hi))

/-- Claim C1 counterexample: `goToLayer` has no range check, so with six
buckets and the machine idle at index 0, `goTo 7` sets the active index to
7, outside the range — the out-of-range call is not ignored. -/
theorem c1_counterexample :
    (runNav 6 initNav [NavOp.goTo 7]).activeLayer = 7 ∧
    ¬(runNav 6 initNav [NavOp.goTo 7]).activeLayer < 6 ∧
    runNav 6 initNav [NavOp.goTo 7] ≠ initNav := by
  decide

/-- Claim C1 (amended): for every run of `goTo` / `next` / `prev` / warp
expiries in which every `goTo` argument is inside `[0, bucketCount)`, the
active index stays inside `[0, bucketCount)`; the unrestricted statement
fails because `goToLayer` does not range-check its argument. -/
theorem c1_index_bound (count : ℤ) (s : NavState) (ops : List NavOp)
    (hs : 0 ≤ s.activeLayer ∧ s.activeLayer < count)
    (hops : ∀ i : ℤ, NavOp.goTo i ∈ ops → 0 ≤ i ∧ i < count) :
    0 ≤ (runNav count s ops).activeLayer ∧
      (runNav count s ops).activeLayer < count :=
  runNav_bound count ops s hs.1 hs.2 hops

/-- Witness for C1 on a run of three in-range commands over three
buckets. -/
theorem c1_index_bound_witness :
    0 ≤ (runNav 3 initNav [NavOp.next, NavOp.goTo 2, NavOp.prev]).activeLayer ∧
    (runNav 3 initNav [NavOp.next, NavOp.goTo 2, NavOp.prev]).activeLayer < 3 :=
  c1_index_bound 3 initNav [NavOp.next, NavOp.goTo 2, NavOp.prev]
    (by decide)
    (by intro i hi; simp at hi; omega)

/-- Claim C2 counterexample: the empty book list does not give zero
buckets — the six seeded default categories survive as empty buckets. -/
theorem c2_counterexample :
    (booksByCategory []).map List.length = some 6 ∧
    (booksByCategory []).map List.length ≠ some 0 := by
  decide

/-- Claim C2 (amended): the empty book list yields exactly the six default
category buckets in seed order, all empty, and navigation over them is
live, not a no-op: from the initial state, `next` moves the active index
to 1. -/
theorem c2_empty_input :
    booksByCategory [] = some (defaultCats.map (fun c => (c, []))) ∧
    (defaultCats.map (fun c => (c, ([] : List Book)))).length = 6 ∧
    (handleNext 6 initNav).activeLayer = 1 ∧
    handleNext 6 initNav ≠ initNav := by
  decide

/-- A tick never moves the depth to zero or below: the recycled depth is
positive and an unrecycled depth passed the positivity test. -/
theorem tickParticle_z_pos (w : Bool) (p : Particle) :
    0 < (tickParticle w p).z := by
  unfold tickParticle
  dsimp only
  split <;> split
  · norm_num
  · rename_i h
    push_neg at h
    show 0 < p.z - p.speed * 12
    linarith
  · norm_num
  · rename_i h
    push_neg at h
    show 0 < p.z - p.speed * 1
    linarith

/-- A tick keeps the speed field. -/
theorem tickParticle_speed_eq (w : Bool) (p : Particle) :
    (tickParticle w p).speed = p.speed := by
  unfold tickParticle
  dsimp only
  split <;> split <;> rfl

/-- A tick keeps the depth at or below `MAX_DEPTH` when the speed is
nonnegative. -/
theorem tickParticle_z_le (w : Bool) (p : Particle)
    (hsp : 0 ≤ p.speed) (hz : p.z ≤ MAX_DEPTH) :
    (tickParticle w p).z ≤ MAX_DEPTH := by
  unfold tickParticle MAX_DEPTH at *
  dsimp only
  split <;> split
  · norm_num
  · show p.z - p.speed * 12 ≤ 2000
    nlinarith
  · norm_num
  · show p.z - p.speed * 1 ≤ 2000
    nlinarith

/-- The per-particle invariant of the running field: nonnegative speed,
positive depth, depth at most `MAX_DEPTH`. -/
def goodParticle (p : Particle) : Prop :=
  0 ≤ p.speed ∧ 0 < p.z ∧ p.z ≤ MAX_DEPTH

/-- One tick establishes the running invariant from nonnegative speed and a
depth at most `MAX_DEPTH` alone (the depth need not be positive yet). -/
theorem tickParticle_good (w : Bool) (p : Particle)
    (hsp : 0 ≤ p.speed) (hz : p.z ≤ MAX_DEPTH) :
    goodParticle (tickParticle w p) := by
  refine ⟨?_, tickParticle_z_pos w p, tickParticle_z_le w p hsp hz⟩
  rw [tickParticle_speed_eq]
  exact hsp

/-- Ticking the field preserves its length. -/
theorem tickField_length (w : Bool) (ps : List Particle) :
    (tickField w ps).length = ps.length := by
  simp [tickField]

/-- Running any number of frames preserves the field length. -/
theorem runTicks_length (ws : List Bool) :
    ∀ ps : List Particle, (runTicks ps ws).length = ps.length := by
  induction ws with
  | nil => intro ps; rfl
  | cons w rest ih =>
      intro ps
      simp only [runTicks, List.foldl_cons] at *
      rw [ih (tickField w ps), tickField_length]

/-- Running frames preserves the per-particle invariant. -/
theorem runTicks_good (ws : List Bool) :
    ∀ ps : List Particle, (∀ p ∈ ps, goodParticle p) →
      ∀ p ∈ runTicks ps ws, goodParticle p := by
  induction ws with
  | nil => intro ps hps; exact hps
  | cons w rest ih =>
      intro ps hps
      simp only [runTicks, List.foldl_cons] at *
      refine ih (tickField w ps) ?_
      intro p hp
      obtain ⟨q, hq, rfl⟩ := List.mem_map.mp hp
      exact tickParticle_good w q (hps q hq).1 (hps q hq).2.2

/-- Every freshly created particle has speed at least 1 and depth in
`[0, MAX_DEPTH)`. -/
theorem createParticles_bounds (cw ch : ℚ) (rand : Nat → ℚ)
    (hrand : ∀ n, 0 ≤ rand n ∧ rand n < 1) :
    ∀ p ∈ createParticles cw ch rand,
      1 ≤ p.speed ∧ 0 ≤ p.z ∧ p.z < MAX_DEPTH := by
  intro p hp
  obtain ⟨i, _, rfl⟩ := List.mem_map.mp hp
  refine ⟨?_, ?_, ?_⟩
  · have := (hrand (5 * i + 4)).1
    dsimp only
    linarith
  · have := (hrand (5 * i + 2)).1
    dsimp only
    positivity
  · have := (hrand (5 * i + 2)).2
    dsimp only [MAX_DEPTH]
    linarith

/-- Claim C4: from initialization, after any positive number of frames the
field still holds exactly `particleCount` particles, every depth lies in
`(0, MAX_DEPTH]`, and a depth that would go nonpositive is reset to exactly
`MAX_DEPTH` on that tick. -/
theorem c4_particle_recycling (cw ch : ℚ) (rand : Nat → ℚ)
    (hrand : ∀ n, 0 ≤ rand n ∧ rand n < 1)
    (ws : List Bool) (hws : ws ≠ []) :
    (runTicks (createParticles cw ch rand) ws).length = particleCount ∧
    (∀ p ∈ runTicks (createParticles cw ch rand) ws,
      0 < p.z ∧ p.z ≤ MAX_DEPTH) ∧
    (∀ (w1 : Bool) (p : Particle),
      p.z - p.speed * (if w1 then 12 else 1) ≤ 0 →
      (tickParticle w1 p).z = MAX_DEPTH) := by
  refine ⟨?_, ?_, ?_⟩
  · rw [runTicks_length]
    simp [createParticles]
  · cases ws with
    | nil => exact absurd rfl hws
    | cons w1 rest =>
        have hinit := createParticles_bounds cw ch rand hrand
        have hgood : ∀ p ∈ tickField w1 (createParticles cw ch rand),
            goodParticle p := by
          intro p hp
          obtain ⟨q, hq, rfl⟩ := List.mem_map.mp hp
          have hb := hinit q hq
          exact tickParticle_good w1 q (by linarith [hb.1]) (le_of_lt hb.2.2)
        intro p hp
        have : goodParticle p := by
          refine runTicks_good rest _ hgood p ?_
          simpa [runTicks, List.foldl_cons] using hp
        exact this.2
  · intro w1 p hle
    unfold tickParticle MAX_DEPTH
    dsimp only
    rw [if_pos hle]

/-- Witness for C4: a constant oracle at one half and a single
non-warping frame. -/
theorem c4_particle_recycling_witness :
    (runTicks (createParticles 800 600 (fun _ => 1 / 2)) [false]).length =
      particleCount ∧
    (∀ p ∈ runTicks (createParticles 800 600 (fun _ => 1 / 2)) [false],
      0 < p.z ∧ p.z ≤ MAX_DEPTH) := by
  have h := c4_particle_recycling 800 600 (fun _ => 1 / 2)
    (fun n => by norm_num) [false] (by simp)
  exact ⟨h.1, h.2.1⟩

/-- Pushing a book adds exactly that book to the multiset of grouped
books. -/
theorem pushBook_flatMap_perm (gs : List (String × List Book)) (c : String)
    (b : Book) :
    ((pushBook gs c b).flatMap Prod.snd).Perm
      (gs.flatMap Prod.snd ++ [b]) := by
  induction gs with
  | nil => simp [pushBook]
  | cons g rest ih =>
      obtain ⟨k, v⟩ := g
      by_cases h : k = c
      · simp only [pushBook, if_pos h, List.flatMap_cons]
        calc (v ++ [b]) ++ rest.flatMap Prod.snd
            = v ++ ([b] ++ rest.flatMap Prod.snd) := by
              simp [List.append_assoc]
          _ ~ v ++ (rest.flatMap Prod.snd ++ [b]) :=
              (List.perm_append_comm).append_left v
          _ = (v ++ rest.flatMap Prod.snd) ++ [b] := by
              simp [List.append_assoc]
      · simp only [pushBook, if_neg h, List.flatMap_cons]
        calc v ++ (pushBook rest c b).flatMap Prod.snd
            ~ v ++ (rest.flatMap Prod.snd ++ [b]) := ih.append_left v
          _ = (v ++ rest.flatMap Prod.snd) ++ [b] := by
              simp [List.append_assoc]

/-- Folding the grouping loop over a book list appends exactly those books
to the grouped multiset. -/
theorem foldl_pushBook_flatMap_perm (books : List Book) :
    ∀ gs : List (String × List Book),
      ((books.foldl (fun gs b => pushBook gs (catOf b) b) gs).flatMap
        Prod.snd).Perm (gs.flatMap Prod.snd ++ books) := by
  induction books with
  | nil => intro gs; simp
  | cons b bs ih =>
      intro gs
      simp only [List.foldl_cons]
      calc ((bs.foldl (fun gs b => pushBook gs (catOf b) b)
              (pushBook gs (catOf b) b)).flatMap Prod.snd)
          ~ (pushBook gs (catOf b) b).flatMap Prod.snd ++ bs := ih _
        _ ~ (gs.flatMap Prod.snd ++ [b]) ++ bs :=
            (pushBook_flatMap_perm gs (catOf b) b).append_right bs
        _ = gs.flatMap Prod.snd ++ (b :: bs) := by simp

/-- The grouped multiset is exactly the input book list. -/
theorem buildGroups_flatMap_perm (books : List Book) :
    ((buildGroups books).flatMap Prod.snd).Perm books := by
  have h := foldl_pushBook_flatMap_perm books
    (defaultCats.map (fun c => (c, [])))
  have h0 : ((defaultCats.map
      (fun c => (c, ([] : List Book)))).flatMap Prod.snd) = [] := by decide
  simpa [buildGroups, h0] using h

theorem insertAscIdx_perm (g : String × List Book)
    (l : List (String × List Book)) : (insertAscIdx g l).Perm (g :: l) := by
  induction l with
  | nil => simp [insertAscIdx]
  | cons h t ih =>
      unfold insertAscIdx
      split
      · exact List.Perm.refl _
      · calc h :: insertAscIdx g t
            ~ h :: g :: t := ih.cons h
          _ ~ g :: h :: t := List.Perm.swap g h t

theorem sortIndexKeys_perm (l : List (String × List Book)) :
    (sortIndexKeys l).Perm l := by
  induction l with
  | nil => exact List.Perm.refl _
  | cons h t ih =>
      unfold sortIndexKeys
      exact (insertAscIdx_perm h (sortIndexKeys t)).trans (ih.cons h)

theorem insertDescCount_perm (g : String × List Book)
    (l : List (String × List Book)) : (insertDescCount g l).Perm (g :: l) := by
  induction l with
  | nil => simp [insertDescCount]
  | cons h t ih =>
      unfold insertDescCount
      split
      · exact List.Perm.refl _
      · calc h :: insertDescCount g t
            ~ h :: g :: t := ih.cons h
          _ ~ g :: h :: t := List.Perm.swap g h t

theorem sortByCountDesc_perm (l : List (String × List Book)) :
    (sortByCountDesc l).Perm l := by
  induction l with
  | nil => exact List.Perm.refl _
  | cons h t ih =>
      unfold sortByCountDesc
      exact (insertDescCount_perm h (sortByCountDesc t)).trans (ih.cons h)

/-- Enumeration reorders the own properties but keeps them all. -/
theorem objectEntries_perm (gs : List (String × List Book)) :
    (objectEntries gs).Perm gs := by
  unfold objectEntries
  calc sortIndexKeys (gs.filter (fun g => isArrayIndex g.1))
        ++ gs.filter (fun g => !isArrayIndex g.1)
      ~ gs.filter (fun g => isArrayIndex g.1)
        ++ gs.filter (fun g => !isArrayIndex g.1) :=
        (sortIndexKeys_perm _).append_right _
    _ ~ gs := List.filter_append_perm _ gs

/-- When no category hits the prototype chain the memo returns the sorted
enumeration of the built groups. -/
theorem booksByCategory_eq_some (books : List Book)
    (hcats : ∀ b ∈ books, catOf b ∉ protoProps) :
    booksByCategory books =
      some (sortByCountDesc (objectEntries (buildGroups books))) := by
  unfold booksByCategory
  rw [if_pos]
  rw [List.all_eq_true]
  intro b hb
  simpa using hcats b hb

/-- `pushBook` yields a bucket named `c` holding `b`. -/
theorem pushBook_exists_self (gs : List (String × List Book)) (c : String)
    (b : Book) : ∃ g ∈ pushBook gs c b, g.1 = c ∧ b ∈ g.2 := by
  induction gs with
  | nil => exact ⟨(c, [b]), by simp [pushBook]⟩
  | cons hd rest ih =>
      obtain ⟨k, v⟩ := hd
      by_cases h : k = c
      · exact ⟨(k, v ++ [b]), by simp [pushBook, if_pos h], h, by simp⟩
      · obtain ⟨g, hg, h1, h2⟩ := ih
        exact ⟨g, by simp [pushBook, if_neg h, hg], h1, h2⟩

/-- `pushBook` keeps every book already in a bucket, in a bucket of the
same name. -/
theorem pushBook_preserves (gs : List (String × List Book)) (c : String)
    (b : Book) {g : String × List Book} (hg : g ∈ gs) {b' : Book}
    (hb : b' ∈ g.2) :
    ∃ g' ∈ pushBook gs c b, g'.1 = g.1 ∧ b' ∈ g'.2 := by
  induction gs with
  | nil => cases hg
  | cons hd rest ih =>
      obtain ⟨k, v⟩ := hd
      rcases List.mem_cons.mp hg with hgeq | hg2
      · subst hgeq
        by_cases h : k = c
        · exact ⟨(k, v ++ [b]), by simp [pushBook, if_pos h],
            rfl, List.mem_append_left _ hb⟩
        · exact ⟨(k, v), by simp [pushBook, if_neg h], rfl, hb⟩
      · by_cases h : k = c
        · exact ⟨g, by simp [pushBook, if_pos h, hg2], rfl, hb⟩
        · obtain ⟨g', hg', h1, h2⟩ := ih hg2
          exact ⟨g', by simp [pushBook, if_neg h, hg'], h1, h2⟩

/-- The grouping fold keeps every book already in a bucket, in a bucket of
the same name. -/
theorem foldl_pushBook_preserves (books : List Book) :
    ∀ gs : List (String × List Book), ∀ g ∈ gs, ∀ b' ∈ g.2,
      ∃ g' ∈ books.foldl (fun gs b => pushBook gs (catOf b) b) gs,
        g'.1 = g.1 ∧ b' ∈ g'.2 := by
  induction books with
  | nil => intro gs g hg b' hb; exact ⟨g, hg, rfl, hb⟩
  | cons b bs ih =>
      intro gs g hg b' hb
      obtain ⟨g1, hg1, h1, h2⟩ := pushBook_preserves gs (catOf b) b hg hb
      obtain ⟨g2, hg2, h3, h4⟩ := ih (pushBook gs (catOf b) b) g1 hg1 b' h2
      exact ⟨g2, by simpa [List.foldl_cons] using hg2, h3.trans h1, h4⟩

/-- Every input book lands in a bucket named by its category key. -/
theorem buildGroups_exists (books : List Book) :
    ∀ b ∈ books, ∃ g ∈ buildGroups books, g.1 = catOf b ∧ b ∈ g.2 := by
  unfold buildGroups
  suffices h : ∀ gs : List (String × List Book), ∀ b ∈ books,
      ∃ g ∈ books.foldl (fun gs b => pushBook gs (catOf b) b) gs,
        g.1 = catOf b ∧ b ∈ g.2 from h _
  induction books with
  | nil => intro gs b hb; cases hb
  | cons b0 bs ih =>
      intro gs b hb
      rcases List.mem_cons.mp hb with rfl | hb2
      · obtain ⟨g, hg, h1, h2⟩ := pushBook_exists_self gs (catOf b) b
        obtain ⟨g', hg', h3, h4⟩ :=
          foldl_pushBook_preserves bs (pushBook gs (catOf b) b) g hg b h2
        exact ⟨g', by simpa [List.foldl_cons] using hg', h3.trans h1, h4⟩
      · obtain ⟨g, hg, h1, h2⟩ := ih (pushBook gs (catOf b0) b0) b hb2
        exact ⟨g, by simpa [List.foldl_cons] using hg, h1, h2⟩

/-- Sum of bucket sizes is the size of the grouped multiset. -/
theorem sum_map_length (l : List (String × List Book)) :
    (l.map (fun g => g.2.length)).sum = (l.flatMap Prod.snd).length := by
  induction l with
  | nil => rfl
  | cons h t ih => simp [ih]

/-- The bucket list the memo returns is a permutation of the built
groups. -/
theorem booksByCategory_perm_buildGroups (books : List Book) :
    (sortByCountDesc (objectEntries (buildGroups books))).Perm
      (buildGroups books) :=
  (sortByCountDesc_perm _).trans (objectEntries_perm _)

/-- Claim C5 counterexample: on a book whose category names the inherited
`Object.prototype.toString`, the truthy inherited value makes the grouping
skip bucket creation and call `push` on a function — a TypeError, modelled
as `none` — so this input list is not partitioned at all. -/
theorem c5_counterexample :
    booksByCategory [{ id := "1", title := "書", category := some "toString" }] =
      none := by
  decide

/-- Claim C5 (amended): when no category key names an `Object.prototype`
member, grouping partitions the input completely — the multiset union of
the buckets is the input list, bucket sizes sum to the input length, every
book sits in the bucket named by its category key, and a missing or empty
category maps to the reserved `未分類` key. -/
theorem c5_partition (books : List Book)
    (hcats : ∀ b ∈ books, catOf b ∉ protoProps) :
    ∃ bs, booksByCategory books = some bs ∧
      (bs.flatMap Prod.snd).Perm books ∧
      (bs.map (fun g => g.2.length)).sum = books.length ∧
      (∀ b ∈ books, ∃ g ∈ bs, g.1 = catOf b ∧ b ∈ g.2) ∧
      (∀ b : Book, b.category = none ∨ b.category = some "" →
        catOf b = "未分類") := by
  refine ⟨sortByCountDesc (objectEntries (buildGroups books)),
    booksByCategory_eq_some books hcats, ?_, ?_, ?_, ?_⟩
  · exact ((booksByCategory_perm_buildGroups books).flatMap_right
      Prod.snd).trans (buildGroups_flatMap_perm books)
  · rw [sum_map_length]
    exact (((booksByCategory_perm_buildGroups books).flatMap_right
      Prod.snd).trans (buildGroups_flatMap_perm books)).length_eq
  · intro b hb
    obtain ⟨g, hg, h1, h2⟩ := buildGroups_exists books b hb
    exact ⟨g, ((booksByCategory_perm_buildGroups books).mem_iff).mpr hg,
      h1, h2⟩
  · intro b hb
    rcases hb with h | h <;> simp [catOf, h]

/-- Witness for C5 on a two-book list with one uncategorized book. -/
theorem c5_partition_witness :
    ∃ bs, booksByCategory
        [{ id := "1", title := "甲", category := none },
         { id := "2", title := "乙", category := some "文學小說" }] = some bs ∧
      ∃ g ∈ bs, g.1 = "未分類" ∧
        ({ id := "1", title := "甲", category := none } : Book) ∈ g.2 := by
  obtain ⟨bs, h1, _, _, h4, _⟩ := c5_partition
    [{ id := "1", title := "甲", category := none },
     { id := "2", title := "乙", category := some "文學小說" }] (by decide)
  obtain ⟨g, hg, hk, hm⟩ := h4
    { id := "1", title := "甲", category := none } (by simp)
  exact ⟨bs, h1, g, hg, by simpa [catOf] using hk, hm⟩

theorem mem_insertDescCount {x g : String × List Book}
    {l : List (String × List Book)} :
    x ∈ insertDescCount g l ↔ x = g ∨ x ∈ l := by
  rw [(insertDescCount_perm g l).mem_iff, List.mem_cons]

/-- Stable insertion preserves the descending-size chain. -/
theorem pairwise_insertDescCount {g : String × List Book}
    {l : List (String × List Book)}
    (hl : l.Pairwise (fun g1 g2 => g2.2.length ≤ g1.2.length)) :
    (insertDescCount g l).Pairwise
      (fun g1 g2 => g2.2.length ≤ g1.2.length) := by
  induction l with
  | nil => simp [insertDescCount]
  | cons hd tl ih =>
      rw [List.pairwise_cons] at hl
      unfold insertDescCount
      split
      · rename_i hle
        rw [List.pairwise_cons]
        refine ⟨?_, List.pairwise_cons.mpr hl⟩
        intro y hy
        rcases List.mem_cons.mp hy with rfl | hy2
        · exact hle
        · exact le_trans (hl.1 y hy2) hle
      · rename_i hgt
        rw [List.pairwise_cons]
        refine ⟨?_, ih hl.2⟩
        intro y hy
        rcases mem_insertDescCount.mp hy with rfl | hy2
        · exact le_of_lt (lt_of_not_le hgt)
        · exact hl.1 y hy2

/-- The sorted bucket list is in weakly descending size order. -/
theorem sortByCountDesc_pairwise (l : List (String × List Book)) :
    (sortByCountDesc l).Pairwise
      (fun g1 g2 => g2.2.length ≤ g1.2.length) := by
  induction l with
  | nil => simp [sortByCountDesc]
  | cons hd tl ih => exact pairwise_insertDescCount ih

/-- Stability of the insertion through the lens of one size class: the
inserted bucket lands in front of its own size class and the others keep
their order. -/
theorem filter_insertDescCount (g : String × List Book)
    (l : List (String × List Book)) (n : Nat) :
    (insertDescCount g l).filter (fun x => x.2.length == n) =
      if g.2.length = n then
        g :: l.filter (fun x => x.2.length == n)
      else l.filter (fun x => x.2.length == n) := by
  induction l with
  | nil =>
      by_cases h : g.2.length = n
      · simp [insertDescCount, h]
      · simp [insertDescCount, h]
  | cons hd tl ih =>
      unfold insertDescCount
      split
      · rename_i hle
        by_cases h : g.2.length = n
        · simp [List.filter_cons, h]
        · simp [List.filter_cons, h]
      · rename_i hgt
        by_cases h : g.2.length = n
        · have hhd : ¬hd.2.length = n := by
            intro he
            exact hgt (le_of_eq (he.trans h.symm))
          simp [List.filter_cons, hhd, ih, h]
        · simp [List.filter_cons, ih, h]

/-- The stable sort does not reorder buckets of equal size. -/
theorem filter_sortByCountDesc (l : List (String × List Book)) (n : Nat) :
    (sortByCountDesc l).filter (fun x => x.2.length == n) =
      l.filter (fun x => x.2.length == n) := by
  induction l with
  | nil => rfl
  | cons hd tl ih =>
      unfold sortByCountDesc
      rw [filter_insertDescCount]
      by_cases h : hd.2.length = n
      · rw [if_pos h, ih]
        simp [List.filter_cons, h]
      · rw [if_neg h, ih]
        simp [List.filter_cons, h]

/-- Pushing a book evolves the key list by `keyStep`. -/
theorem pushBook_map_fst (gs : List (String × List Book)) (c : String)
    (b : Book) :
    (pushBook gs c b).map Prod.fst = keyStep (gs.map Prod.fst) c := by
  induction gs with
  | nil => simp [pushBook, keyStep]
  | cons hd rest ih =>
      obtain ⟨k, v⟩ := hd
      by_cases h : k = c
      · subst h
        simp [pushBook, keyStep]
      · simp only [pushBook, if_neg h, List.map_cons, ih, keyStep]
        by_cases hc : c ∈ rest.map Prod.fst
        · rw [if_pos hc, if_pos (by simp [hc])]
        · rw [if_neg hc,
            if_neg (by
              simp only [List.mem_cons, not_or]
              exact ⟨fun he => h he.symm, hc⟩),
            List.cons_append]

/-- The grouping fold evolves the key list by folding `keyStep`. -/
theorem foldl_pushBook_map_fst (books : List Book) :
    ∀ gs : List (String × List Book),
      ((books.foldl (fun gs b => pushBook gs (catOf b) b) gs).map Prod.fst) =
        books.foldl (fun acc b => keyStep acc (catOf b))
          (gs.map Prod.fst) := by
  induction books with
  | nil => intro gs; rfl
  | cons b bs ih =>
      intro gs
      simp only [List.foldl_cons]
      rw [ih, pushBook_map_fst]

/-- Folding `keyStep` from the seeded defaults only ever appends after the
defaults. -/
theorem keyfold_split (books : List Book) :
    ∀ e : List String,
      books.foldl (fun acc b => keyStep acc (catOf b)) (defaultCats ++ e) =
        defaultCats ++ books.foldl
          (fun acc b =>
            if catOf b ∈ defaultCats ∨ catOf b ∈ acc then acc
            else acc ++ [catOf b]) e := by
  induction books with
  | nil => intro e; rfl
  | cons b bs ih =>
      intro e
      simp only [List.foldl_cons]
      have hstep : keyStep (defaultCats ++ e) (catOf b) =
          defaultCats ++ (if catOf b ∈ defaultCats ∨ catOf b ∈ e then e
            else e ++ [catOf b]) := by
        unfold keyStep
        by_cases h : catOf b ∈ defaultCats ∨ catOf b ∈ e
        · rw [if_pos (List.mem_append.mpr h), if_pos h]
        · rw [if_neg (fun hm => h (List.mem_append.mp hm)), if_neg h,
            List.append_assoc]
      rw [hstep, ih]

/-- The keys of the built groups are the seeded defaults followed by the
newly discovered categories in first-seen order. -/
theorem buildGroups_map_fst (books : List Book) :
    (buildGroups books).map Prod.fst = defaultCats ++ newCats books := by
  unfold buildGroups newCats
  rw [foldl_pushBook_map_fst]
  rw [show (defaultCats.map (fun c => (c, ([] : List Book)))).map Prod.fst =
    defaultCats ++ ([] : List String) by decide]
  exact keyfold_split books []

/-- Every newly discovered category is the category key of some input
book. -/
theorem mem_newCats_aux (books : List Book) :
    ∀ (acc : List String) (c : String),
      c ∈ books.foldl
        (fun acc b =>
          if catOf b ∈ defaultCats ∨ catOf b ∈ acc then acc
          else acc ++ [catOf b]) acc →
      c ∈ acc ∨ ∃ b ∈ books, catOf b = c := by
  induction books with
  | nil => intro acc c h; exact Or.inl h
  | cons b bs ih =>
      intro acc c h
      simp only [List.foldl_cons] at h
      rcases ih _ c h with h2 | h2
      · by_cases hb : catOf b ∈ defaultCats ∨ catOf b ∈ acc
        · rw [if_pos hb] at h2
          exact Or.inl h2
        · rw [if_neg hb] at h2
          rcases List.mem_append.mp h2 with h3 | h3
          · exact Or.inl h3
          · exact Or.inr ⟨b, by simp, (List.mem_singleton.mp h3).symm⟩
      · obtain ⟨b', hb', hc⟩ := h2
        exact Or.inr ⟨b', by simp [hb'], hc⟩

/-- With no array-index category on the input, no key of the built groups
is an array index. -/
theorem buildGroups_keys_no_index (books : List Book)
    (hidx : ∀ b ∈ books, isArrayIndex (catOf b) = false) :
    ∀ g ∈ buildGroups books, isArrayIndex g.1 = false := by
  intro g hg
  have hk : g.1 ∈ (buildGroups books).map Prod.fst :=
    List.mem_map_of_mem _ hg
  rw [buildGroups_map_fst] at hk
  rcases List.mem_append.mp hk with h | h
  · have hdef : ∀ s ∈ defaultCats, isArrayIndex s = false := by decide
    exact hdef _ h
  · rcases mem_newCats_aux books [] g.1 (by simpa [newCats] using h) with
      h2 | ⟨b, hb, hc⟩
    · cases h2
    · rw [← hc]
      exact hidx b hb

/-- Enumeration is the identity on a map with no array-index keys. -/
theorem objectEntries_eq_of_no_index {gs : List (String × List Book)}
    (h : ∀ g ∈ gs, isArrayIndex g.1 = false) : objectEntries gs = gs := by
  unfold objectEntries
  rw [List.filter_eq_nil_iff.mpr (by intro g hg; simp [h g hg]),
    List.filter_eq_self.mpr (by intro g hg; simp [h g hg])]
  rfl

/-- Claim C6 counterexample: one book in the seeded category 商業理財 and
one in the category named by the digit five gives two buckets of equal
size 1; first-seen order is 商業理財 (seeded) before the digit bucket (the
built keys end with it), yet the enumeration of the object hoists the
canonical array-index key to the front, so the returned order starts with
the digit bucket — equal counts do not keep first-seen order. -/
theorem c6_counterexample :
    (booksByCategory [c6bookA, c6book5]).map (List.map Prod.fst) =
      some ["5", "商業理財", "心理勵志", "文學小說", "人文社科",
        "科幻小說", "自我成長"] ∧
    (booksByCategory [c6bookA, c6book5]).map
        (List.map (fun g => g.2.length)) =
      some [1, 1, 0, 0, 0, 0, 0] ∧
    (buildGroups [c6bookA, c6book5]).map Prod.fst =
      defaultCats ++ ["5"] := by
  refine ⟨by decide, by decide, by decide⟩

/-- Claim C6 (amended): when no category key is a canonical array-index
string, the returned bucket list is sorted by weakly descending size,
buckets of equal size keep the first-seen order of their keys (the filter
to each size class is unchanged by the sort), and the pre-sort key order is
the seeded defaults followed by newly discovered categories in
item-encounter order; the unrestricted statement fails because JavaScript
object enumeration hoists array-index keys. -/
theorem c6_ordering (books : List Book)
    (hcats : ∀ b ∈ books, catOf b ∉ protoProps)
    (hidx : ∀ b ∈ books, isArrayIndex (catOf b) = false) :
    ∃ bs, booksByCategory books = some bs ∧
      bs.Pairwise (fun g1 g2 => g2.2.length ≤ g1.2.length) ∧
      (∀ n : Nat, bs.filter (fun g => g.2.length == n) =
        (buildGroups books).filter (fun g => g.2.length == n)) ∧
      (buildGroups books).map Prod.fst = defaultCats ++ newCats books := by
  have hent : objectEntries (buildGroups books) = buildGroups books :=
    objectEntries_eq_of_no_index (buildGroups_keys_no_index books hidx)
  refine ⟨_, booksByCategory_eq_some books hcats,
    sortByCountDesc_pairwise _, ?_, buildGroups_map_fst books⟩
  intro n
  rw [hent, filter_sortByCountDesc]

/-- Witness for C6 on a single seeded-category book. -/
theorem c6_ordering_witness :
    ∃ bs, booksByCategory [c6bookA] = some bs ∧
      bs.Pairwise (fun g1 g2 => g2.2.length ≤ g1.2.length) := by
  obtain ⟨bs, h1, h2, _, _⟩ := c6_ordering [c6bookA] (by decide) (by decide)
  exact ⟨bs, h1, h2⟩

end ReadingLog
